import Mathlib

/-!
Verification of the `garch` git-history viewer (src/main.rs) against its
natural-language specification.

The Rust source is shallowly embedded below. Strings are processed through
their character lists (`List Char`), with byte lengths computed through
`Char.utf8Size`, so that Rust's byte-oriented `str` operations (`len`,
byte-range slicing) are modelled exactly where it matters. Machine integers
(`usize`, `i64`) are modelled as `Nat`/`Int`; the only place the finite range
of `usize` is semantically relevant is the `usize::MAX` sentinel of
`find_closest_line_in_filtered`, which is kept as the literal
18446744073709551615. Fallible operations return `Option`, with `none`
standing for a Rust panic. Every definition is executable so concrete runs
can be checked by `decide`.
-/

set_option maxRecDepth 8000

/-- Data model: one parsed commit-log record (struct `CommitInfo`, main.rs 16-22). -/
structure CommitInfo where
  hash : String
  date : String
  author : String
  message : String
deriving DecidableEq, Repr

/-- Data model: kind of a diff change (enum `ChangeType`, main.rs 31-36). -/
inductive ChangeType where
  | Added
  | Removed
  | Modified
deriving DecidableEq, Repr

/-- Data model: one per-line diff record (struct `LineChange`, main.rs 24-29). -/
structure LineChange where
  line_number : Nat
  change_type : ChangeType
  content : String
deriving DecidableEq, Repr

/-- Data model: one blame-attributed line (struct `BlameLine`, main.rs 38-47). -/
structure BlameLine where
  line_number : Nat
  author : String
  date : String
  commit_hash : String
  commit_message : String
  content : String
  highlighted_content : String
deriving DecidableEq, Repr

/-- Data model: one reconstructed file snapshot (struct `FileVersion`, main.rs 49-55). -/
structure FileVersion where
  commit_hash : String
  commit_date : String
  commit_message : String
  blame_lines : List BlameLine
deriving DecidableEq, Repr

/-- A placeholder `BlameLine`, used only as the default of total `getD` lookups
whose index is separately known to be in bounds. -/
def blameDefault : BlameLine :=
  { line_number := 0, author := "", date := "", commit_hash := "",
    commit_message := "", content := "", highlighted_content := "" }

/-- A placeholder `FileVersion` for total `getD` lookups; the Rust code indexes
`versions[current_version]` directly, with the bound maintained by the
event-handling guards. -/
def emptyVersion : FileVersion :=
  { commit_hash := "", commit_date := "", commit_message := "", blame_lines := [] }

/-! ## Character-level string utilities

Models of the Rust `str` operations the program uses. They operate on
`List Char` so that they compute by kernel reduction. -/

/-- Split a character list at every character satisfying `p`, keeping empty
pieces. Models Rust `str::split` (which yields `[""]` on the empty string and
empty pieces between adjacent separators). -/
def splitPred (p : Char → Bool) : List Char → List (List Char)
  | [] => [[]]
  | x :: xs =>
    let r := splitPred p xs
    if p x then [] :: r
    else
      match r with
      | [] => [[x]]
      | h :: t => (x :: h) :: t

/-- Rust `str::split(c)`. -/
def splitOnChar (c : Char) (cs : List Char) : List (List Char) :=
  splitPred (fun x => x == c) cs

/-- Rust `str::split_whitespace`: split on whitespace and drop empty pieces. -/
def splitWhitespaceChars (cs : List Char) : List (List Char) :=
  (splitPred (fun c => c.isWhitespace) cs).filter (fun t => !t.isEmpty)

/-- UTF-8 byte length of a character list; models Rust `str::len`. -/
def utf8Len (cs : List Char) : Nat :=
  cs.foldr (fun c n => c.utf8Size + n) 0

/-- Rust's byte-range slice `&s[..k]`: `some` of the sliced characters
exactly when `k` lands on a character boundary within the string; `none`
models the Rust panic ("byte index k is not a char boundary" or
out-of-range). -/
def takeBytes : List Char → Nat → Option (List Char)
  | _, 0 => some []
  | [], _ + 1 => none
  | c :: cs, k + 1 =>
    if c.utf8Size ≤ k + 1 then (takeBytes cs (k + 1 - c.utf8Size)).map (fun t => c :: t)
    else none

/-- Rust `str::parse::<usize>` restricted to the plain digit strings the
program feeds it: `some` of the value on a nonempty all-digit string,
`none` otherwise. -/
def charsToNat? (cs : List Char) : Option Nat :=
  if cs ≠ [] ∧ cs.all (fun c => c.isDigit) then
    some (cs.foldl (fun n c => n * 10 + (c.toNat - 48)) 0)
  else none

/-- Rust `str::parse::<i64>`: an optional sign followed by digits. -/
def charsToInt? (cs : List Char) : Option Int :=
  match cs with
  | '-' :: rest => (charsToNat? rest).map (fun n => -(n : Int))
  | '+' :: rest => (charsToNat? rest).map (fun n => (n : Int))
  | _ => (charsToNat? cs).map (fun n => (n : Int))

/-- Remove one trailing carriage return, as Rust `str::lines` does. -/
def dropTrailingCR (cs : List Char) : List Char :=
  if cs.getLast? = some '\r' then cs.dropLast else cs

/-- Rust `str::lines`: split on newline characters, drop a final empty piece
produced by a trailing newline, and strip a trailing `\r` from each line. -/
def rustLinesChars (cs : List Char) : List (List Char) :=
  let parts := splitOnChar '\n' cs
  let parts := if parts.getLast? = some [] then parts.dropLast else parts
  parts.map dropTrailingCR

/-! ## Commit Parser (`parse_commit_line`, main.rs 317-329) -/

/-- The pipe-delimited fields of one commit-log record
(`line.split('|').collect()`, main.rs 318). -/
def commitParts (line : String) : List String :=
  (splitOnChar '|' line.toList).map String.mk

/-- `parse_commit_line` (main.rs 317-329): a record with at least four
pipe-delimited fields becomes a `CommitInfo` taking the first four fields;
shorter records are dropped (`None`). Note that `message` is `parts[3]`
alone — fields past the fourth are discarded, not rejoined. -/
def parse_commit_line (line : String) : Option CommitInfo :=
  let parts := commitParts line
  if 4 ≤ parts.length then
    some { hash := parts.getD 0 "", date := parts.getD 1 "",
           author := parts.getD 2 "", message := parts.getD 3 "" }
  else none

/-! ## Cross-Version Line Tracker (`find_closest_line_in_filtered`,
main.rs 212-240, and `get_current_target_line`, main.rs 242-254) -/

/-- The absolute distance computed inside the tracker's loop
(main.rs 227-231): `if line.line_number > target { ln - target } else
{ target - ln }`. -/
def lineDist (target ln : Nat) : Nat :=
  if target < ln then ln - target else target - ln

/-- `usize::MAX`, the initial `min_distance` of the tracker's scan
(main.rs 224). -/
def USIZE_MAX : Nat := 18446744073709551615

/-- Rust `Iterator::position` with a running index, used for the tracker's
exact-match search (main.rs 218). -/
def positionAux {α : Type} (p : α → Bool) : List α → Nat → Option Nat
  | [], _ => none
  | l :: rest, i => if p l then some i else positionAux p rest (i + 1)

/-- Rust `iter().position(p)`. -/
def position {α : Type} (p : α → Bool) (ls : List α) : Option Nat :=
  positionAux p ls 0

/-- The closest-line scan of `find_closest_line_in_filtered`
(main.rs 222-237): walk the rows in order, keeping the first position whose
distance strictly improves on the running minimum. -/
def closestLoop (target : Nat) : List BlameLine → Nat → Nat → Nat → Nat
  | [], _, closest_pos, _ => closest_pos
  | l :: rest, pos, closest_pos, min_distance =>
    let d := lineDist target l.line_number
    if d < min_distance then closestLoop target rest (pos + 1) pos d
    else closestLoop target rest (pos + 1) closest_pos min_distance

/-- `find_closest_line_in_filtered` (main.rs 212-240): `none` on an empty
row list; otherwise the first exact match on `target`, and failing that the
position found by the strict-improvement scan started at
`min_distance = usize::MAX`. -/
def find_closest_line_in_filtered (filtered_lines : List BlameLine) (target_line : Nat) : Option Nat :=
  if filtered_lines.isEmpty then none
  else
    match position (fun line => line.line_number == target_line) filtered_lines with
    | some pos => some pos
    | none => some (closestLoop target_line filtered_lines 0 0 USIZE_MAX)

/-- `get_current_target_line` (main.rs 242-254): line number of the focused
row (first visible row, or the row just before the middle of the window),
falling back to the first row and then to 1. -/
def get_current_target_line (filtered_lines : List BlameLine) (scroll_offset content_height : Nat) : Nat :=
  let visible_start := scroll_offset
  let visible_end := min (scroll_offset + content_height / 2) filtered_lines.length
  match filtered_lines.get? (max visible_start (visible_end - 1)) with
  | some line => line.line_number
  | none =>
    match filtered_lines.head? with
    | some line => line.line_number
    | none => 1

/-! ## Blame Parser (`format_timestamp` main.rs 193-210,
`abbreviate_author` main.rs 351-358,
`parse_blame_output_with_highlighting` main.rs 403-482) -/

/-- Left-pad a numeral with zeros, as Rust's `{:04}`/`{:02}` format specifiers do. -/
def zeroPad (w : Nat) (n : Nat) : String :=
  let s := toString n
  if s.length < w then String.mk (List.replicate (w - s.length) '0') ++ s else s

/-- `format_timestamp` (main.rs 193-210). `timestamp as u64` wraps modulo
2^64; `UNIX_EPOCH.checked_add` fails (yielding "unknown") once the seconds
exceed the platform time range, modelled as `i64::MAX`. The date arithmetic
is the source's deliberately coarse 365-day-year / 30-day-month
approximation. -/
def format_timestamp (timestamp : Int) : String :=
  let secs : Nat := (timestamp % (18446744073709551616 : Int)).toNat
  if secs ≤ 9223372036854775807 then
    let days := secs / 86400
    let year := 1970 + days / 365
    let day_of_year := days % 365
    let month := day_of_year / 30 + 1
    let day := day_of_year % 30 + 1
    zeroPad 4 year ++ "-" ++ zeroPad 2 (min month 12) ++ "-" ++ zeroPad 2 (min day 31)
  else "unknown"

/-- `abbreviate_author` (main.rs 351-358): two or more whitespace-separated
tokens become `"First L."` (first character of the second token, `'?'` when
that token is empty — unreachable since tokens are nonempty); a single token
is returned unchanged. -/
def abbreviate_author (author : String) : String :=
  let parts := splitWhitespaceChars author.toList
  if 2 ≤ parts.length then
    String.mk (parts.getD 0 []) ++ " " ++ String.mk [(parts.getD 1 []).headD '?'] ++ "."
  else author

/-- Result of scanning one blame record's metadata lines: the collected
fields, the content line (tab stripped), and the remaining input lines. -/
structure RecordScan where
  author : String
  date : String
  summary : String
  content : String
  rest : List (List Char)
deriving DecidableEq, Repr

/-- The inner metadata loop of the blame parser (main.rs 434-453): consume
lines, recording `author `, `author-time ` and `summary ` fields, until the
first tab-prefixed line (the content, ending the record) or the end of the
input. If the input ends first, `content` is left as the empty string and
all lines have been consumed. -/
def scanRecord (author date summary : String) : List (List Char) → RecordScan
  | [] => { author := author, date := date, summary := summary, content := "", rest := [] }
  | info :: rest =>
    if "author ".toList.isPrefixOf info then
      scanRecord (String.mk (info.drop 7)) date summary rest
    else if "author-time ".toList.isPrefixOf info then
      match charsToInt? (info.drop 12) with
      | some t => scanRecord author (format_timestamp t) summary rest
      | none => scanRecord author date summary rest
    else if "summary ".toList.isPrefixOf info then
      scanRecord author date (String.mk (info.drop 8)) rest
    else if ['\t'].isPrefixOf info then
      { author := author, date := date, summary := summary,
        content := String.mk (info.drop 1), rest := rest }
    else scanRecord author date summary rest

/-- The outer loop of `parse_blame_output_with_highlighting`
(main.rs 417-482), with the syntax highlighter abstracted as a pure
`highlight` function (the source builds one `HighlightLines` per file pass).
A line with at least three whitespace-separated tokens whose first token is
at least 7 bytes long starts a record; the record is pushed unconditionally
after the metadata scan — also when the scan ran out of input without a
content line. The short hash is the byte slice `&commit_hash[..7]`
(main.rs 468), which panics when byte 7 is not a character boundary of the
token: `takeBytes` models that slice and the overall result is `none` (the
panic) in that case. The first `Nat` argument is fuel, always instantiated
with the number of remaining lines; the Rust `while` advances `i` every
iteration, so this bound is never exhausted. -/
def parse_blame_aux (highlight : String → String) : Nat → List (List Char) → Option (List BlameLine)
  | 0, _ => some []
  | _ + 1, [] => some []
  | fuel + 1, line :: rest =>
    let parts := splitWhitespaceChars line
    if 3 ≤ parts.length ∧ 7 ≤ utf8Len (parts.getD 0 []) then
      match takeBytes (parts.getD 0 []) 7 with
      | none => none
      | some hash7 =>
        let line_number := (charsToNat? (parts.getD 2 [])).getD 0
        let r := scanRecord "" "" "" rest
        let content := r.content
        let highlighted_content :=
          if 200 < utf8Len content.toList then content else highlight content
        (parse_blame_aux highlight fuel r.rest).map (fun bs =>
          { line_number := line_number,
            author := abbreviate_author r.author,
            date := r.date,
            commit_hash := String.mk hash7,
            commit_message := r.summary,
            content := content,
            highlighted_content := highlighted_content } :: bs)
    else parse_blame_aux highlight fuel rest

/-- The blame parser applied to a list of record lines; `none` is the
short-hash byte-slice panic. -/
def parse_blame_records (highlight : String → String) (ls : List (List Char)) : Option (List BlameLine) :=
  parse_blame_aux highlight ls.length ls

/-- `parse_blame_output_with_highlighting` (main.rs 403-482) on raw blame
text; `none` is the short-hash byte-slice panic. -/
def parse_blame_output_with_highlighting (highlight : String → String) (blame_text : String) :
    Option (List BlameLine) :=
  parse_blame_records highlight (rustLinesChars blame_text.toList)

/-! ## Line-Range Filter (main.rs 552-565, inside `run_interactive_viewer`) -/

/-- `max_line_in_version` (main.rs 552-555):
`blame_lines.iter().map(line_number).max().unwrap_or(0)`. -/
def maxLineInVersion (v : FileVersion) : Nat :=
  (v.blame_lines.map (fun l => l.line_number)).foldr max 0

/-- The filtered row set of one render cycle (main.rs 557-565): clamp the
requested end to the version's maximum line number, then keep the rows whose
`line_number` lies in the inclusive window. -/
def filteredLines (version : FileVersion) (start_line end_line : Nat) : List BlameLine :=
  let max_line_in_version := maxLineInVersion version
  let adjusted_end_line :=
    if max_line_in_version < end_line then max_line_in_version else end_line
  version.blame_lines.filter
    (fun line => decide (start_line ≤ line.line_number) && decide (line.line_number ≤ adjusted_end_line))

/-! ## Viewport/Render Engine state machine (`run_interactive_viewer`,
main.rs 484-720)

The interactive loop is embedded as a state machine. Each cycle of the Rust
loop reads the terminal size, computes the filtered rows, resolves a pending
target-line anchor into `scroll_offset`, renders, and blocks for one input
event; rendering and reading can fail (crossterm I/O). A cycle is therefore
driven by a `CycleInput`: either a successful cycle carrying that cycle's
terminal height and input event, or an I/O failure, which the `?` operator
propagates out of the function immediately. -/

/-- Keyboard keys distinguished by the event match (main.rs 647-691). -/
inductive GKey where
  | qKey | left | right | up | down | pageUp | pageDown | home | endKey | otherKey
deriving DecidableEq, Repr

/-- Mouse events distinguished by the event match (main.rs 696-710). -/
inductive GMouse where
  | scrollUp | scrollDown | otherMouse
deriving DecidableEq, Repr

/-- One input event (main.rs 644-713). -/
inductive VEvent where
  | key (k : GKey)
  | mouse (m : GMouse)
  | otherEvent
deriving DecidableEq, Repr

/-- The session-scoped mutable state of the viewer (main.rs 489-491). -/
structure ViewerSt where
  current_version : Nat
  scroll_offset : Nat
  target_line : Option Nat
deriving DecidableEq, Repr

/-- The input-event match of the viewer loop (main.rs 644-714), verbatim:
each arm updates the state exactly as the source does (`Nat` subtraction is
Rust `saturating_sub`); the returned flag is `true` exactly for the `q`
break. -/
def handleEvent (ev : VEvent) (filtered_lines : List BlameLine)
    (content_height num_versions : Nat) (st : ViewerSt) : ViewerSt × Bool :=
  match ev with
  | .key .qKey => (st, true)
  | .key .left =>
    if 0 < st.current_version then
      ({ st with
          target_line := some (get_current_target_line filtered_lines st.scroll_offset content_height),
          current_version := st.current_version - 1 }, false)
    else (st, false)
  | .key .right =>
    if st.current_version < num_versions - 1 then
      ({ st with
          target_line := some (get_current_target_line filtered_lines st.scroll_offset content_height),
          current_version := st.current_version + 1 }, false)
    else (st, false)
  | .key .up =>
    if 0 < st.scroll_offset then
      ({ st with scroll_offset := st.scroll_offset - 1, target_line := none }, false)
    else (st, false)
  | .key .down =>
    if st.scroll_offset + content_height < filtered_lines.length then
      ({ st with scroll_offset := st.scroll_offset + 1, target_line := none }, false)
    else (st, false)
  | .key .pageUp =>
    ({ st with scroll_offset := st.scroll_offset - content_height / 2, target_line := none }, false)
  | .key .pageDown =>
    ({ st with
        scroll_offset := min (st.scroll_offset + content_height / 2)
          (filtered_lines.length - content_height),
        target_line := none }, false)
  | .key .home => ({ st with scroll_offset := 0, target_line := none }, false)
  | .key .endKey =>
    ({ st with scroll_offset := filtered_lines.length - content_height, target_line := none }, false)
  | .key .otherKey => (st, false)
  | .mouse .scrollUp =>
    ({ st with scroll_offset := st.scroll_offset - 3, target_line := none }, false)
  | .mouse .scrollDown =>
    let max_scroll :=
      if content_height < filtered_lines.length then filtered_lines.length - content_height
      else 0
    ({ st with scroll_offset := min (st.scroll_offset + 3) max_scroll, target_line := none }, false)
  | .mouse .otherMouse => (st, false)
  | .otherEvent => (st, false)

/-- One successful cycle of the viewer loop (main.rs 493-715):
`content_height = terminal_height - 4` (main.rs 495), filtered rows for the
current version (main.rs 552-565), resolution of a pending target-line
anchor into `scroll_offset` (main.rs 568-576), then the input-event match. -/
def viewerCycle (versions : List FileVersion) (start_line end_line : Nat)
    (terminal_height : Nat) (ev : VEvent) (st : ViewerSt) : ViewerSt × Bool :=
  let content_height := terminal_height - 4
  let version := versions.getD st.current_version emptyVersion
  let filtered_lines := filteredLines version start_line end_line
  let st1 :=
    match st.target_line with
    | some target =>
      match find_closest_line_in_filtered filtered_lines target with
      | some closest_pos =>
        let so := closest_pos - content_height / 2
        let so :=
          if filtered_lines.length < so + content_height then
            filtered_lines.length - content_height
          else so
        { st with scroll_offset := so }
      | none => st
    | none => st
  handleEvent ev filtered_lines content_height versions.length st1

/-- Driver input for one loop cycle: a successful cycle (terminal height and
the event read), or a terminal I/O failure somewhere in the cycle, which the
`?` operator propagates immediately. -/
inductive CycleInput where
  | ok (terminal_height : Nat) (ev : VEvent)
  | ioFail
deriving DecidableEq, Repr

/-- How a run of the viewer loop ended: `quit` via the `q` key (the `break`
at main.rs 648), `ioError` via a propagated terminal I/O failure, or
`pending` when the supplied input is exhausted while the loop would still be
blocking for more. -/
inductive LoopResult where
  | quit (st : ViewerSt)
  | ioError
  | pending (st : ViewerSt)
deriving DecidableEq, Repr

/-- The viewer loop (main.rs 493-715) run over a list of cycle inputs. -/
def viewerLoop (versions : List FileVersion) (start_line end_line : Nat) :
    ViewerSt → List CycleInput → LoopResult
  | st, [] => .pending st
  | _, .ioFail :: _ => .ioError
  | st, .ok h ev :: rest =>
    let r := viewerCycle versions start_line end_line h ev st
    if r.2 then .quit r.1 else viewerLoop versions start_line end_line r.1 rest

/-- Terminal-mode effects of `run_interactive_viewer`: raw mode and the
alternate screen (main.rs 485-487 on entry, 717-718 on the normal exit). -/
inductive TermEffect where
  | enableRaw
  | enterAlt
  | disableRaw
  | leaveAlt
deriving DecidableEq, Repr

/-- `run_interactive_viewer` (main.rs 484-720): enters raw mode and the
alternate screen, runs the loop from the initial state
(`current_version = 0`, `scroll_offset = 0`, no target line, main.rs
489-491), and executes the teardown (main.rs 717-718) only when the loop
reaches its normal `break`; an error returned by `?` inside the loop leaves
the function before those lines run. The first component is the trace of
terminal-mode effects performed. -/
def run_interactive_viewer (versions : List FileVersion) (start_line end_line : Nat)
    (inputs : List CycleInput) : List TermEffect × LoopResult :=
  match viewerLoop versions start_line end_line
      { current_version := 0, scroll_offset := 0, target_line := none } inputs with
  | .quit st => ([.enableRaw, .enterAlt, .disableRaw, .leaveAlt], .quit st)
  | .ioError => ([.enableRaw, .enterAlt], .ioError)
  | .pending st => ([.enableRaw, .enterAlt], .pending st)

/-! ## Diff Change Extractor (`parse_diff_output`, main.rs 743-795) -/

/-- Rust `str::find` (here: first index of a character), used to locate the
`+`, `,` and ` ` of a hunk header; for the ASCII headers involved, byte and
character indices coincide. -/
def findCharIdx (p : Char → Bool) : List Char → Nat → Option Nat
  | [], _ => none
  | c :: cs, i => if p c then some i else findCharIdx p cs (i + 1)

/-- Hunk-header parsing (main.rs 752-761): find the first `+`; the new-start
numeral runs to the following `,` (searched first) or ` `; parse failures
fall back to 1; a header with neither delimiter after the `+` leaves the
counter unchanged, as does a header with no `+` at all. -/
def parseHunkNewStart (l : List Char) (prev : Nat) : Nat :=
  match findCharIdx (fun c => c == '+') l 0 with
  | none => prev
  | some plus_pos =>
    let tail := l.drop plus_pos
    match findCharIdx (fun c => c == ',') tail 0 with
    | some comma_pos => (charsToNat? ((tail.take comma_pos).drop 1)).getD 1
    | none =>
      match findCharIdx (fun c => c == ' ') tail 0 with
      | some space_pos => (charsToNat? ((tail.take space_pos).drop 1)).getD 1
      | none => prev

/-- The line loop of `parse_diff_output` (main.rs 743-795): `@@` headers
(re)initialise the counter and enter the hunk; everything before the first
hunk is skipped; `commit ` / `diff --git` lines end parsing; `+` lines (not
`+++`) emit `Added` at the counter and increment it; `-` lines (not `---`)
emit `Removed` at the counter without incrementing; space lines increment
silently. -/
def parseDiffLoop (in_diff : Bool) (line_number : Nat) : List (List Char) → List LineChange
  | [] => []
  | l :: rest =>
    if ['@', '@'].isPrefixOf l then
      parseDiffLoop true (parseHunkNewStart l line_number) rest
    else if !in_diff then
      parseDiffLoop in_diff line_number rest
    else if "commit ".toList.isPrefixOf l || "diff --git".toList.isPrefixOf l then
      []
    else if ['+'].isPrefixOf l && !("+++".toList.isPrefixOf l) then
      { line_number := line_number, change_type := .Added, content := String.mk (l.drop 1) }
        :: parseDiffLoop in_diff (line_number + 1) rest
    else if ['-'].isPrefixOf l && !("---".toList.isPrefixOf l) then
      { line_number := line_number, change_type := .Removed, content := String.mk (l.drop 1) }
        :: parseDiffLoop in_diff line_number rest
    else if [' '].isPrefixOf l then
      parseDiffLoop in_diff (line_number + 1) rest
    else
      parseDiffLoop in_diff line_number rest

/-- `parse_diff_output` (main.rs 743-795): the loop applied to the diff's
lines, starting outside any hunk with the counter at 0. -/
def parse_diff_output (diff_text : String) : List LineChange :=
  parseDiffLoop false 0 (rustLinesChars diff_text.toList)

/-! ## Render-step byte truncation (main.rs 523-541 and 612-628)

Rust's `&s[..k]` slices `k` BYTES and panics when `k` is not a character
boundary; both renders below model it with `takeBytes`, `none` standing for
the panic. -/

/-- The per-row content rendering decision (main.rs 612-628): content that
fits is printed highlighted; content wider than `content_width` is truncated
to `content_width - 3` BYTES of the plain content with a `...` suffix —
`none` models the byte-slice panic on a non-boundary cut. -/
def renderContentRow (content highlighted_content : String) (content_width : Nat) : Option String :=
  if utf8Len content.toList ≤ content_width then some highlighted_content
  else if content_width < utf8Len content.toList then
    (takeBytes content.toList (content_width - 3)).map (fun t => String.mk t ++ "...")
  else some highlighted_content

/-- The commit-details line (main.rs 522-541): the hash is byte-sliced to 8
when longer, the decorated line is built, and a line wider than the terminal
is truncated to `terminal_width - 3` BYTES with a `...` suffix; `none`
models either byte-slice panicking. The decorations (`🔗`, `│`) are
multi-byte, so the truncation cut is routinely mid-character. -/
def commitLineRender (commit_hash commit_message : String) (terminal_width : Nat) : Option String :=
  let commit_short :=
    if 8 < utf8Len commit_hash.toList then (takeBytes commit_hash.toList 8).map String.mk
    else some commit_hash
  match commit_short with
  | none => none
  | some short =>
    let commit_line := "🔗 " ++ short ++ " │ " ++ commit_message
    if terminal_width < utf8Len commit_line.toList then
      (takeBytes commit_line.toList (terminal_width - 3)).map (fun t => String.mk t ++ "...")
    else some commit_line

/-! ## Command handlers (`handle_lines_command` main.rs 113-148,
`handle_file_command` main.rs 150-174)

The external git queries and the interactive viewer are abstracted as
`Except`-valued inputs (the spec treats them as external collaborators).
The outcome records what is printed to each stream and how the process
ends: `exit_code = some n` is an explicit `std::process::exit(n)`;
`exit_code = none` means the handler returns normally and the process ends
with status 0. -/

/-- Observable outcome of one subcommand handler. -/
structure CmdOutcome where
  stdout_lines : List String
  stderr_lines : List String
  exit_code : Option Nat
deriving DecidableEq, Repr

/-- `handle_lines_command` (main.rs 113-148). Every failure path prints to
stderr and calls `std::process::exit(1)`; an empty history prints to stdout
and returns normally. -/
def handle_lines_command (line_history : Except String (List CommitInfo))
    (file_versions : Except String (List FileVersion)) (viewer : Except String Unit)
    (file_path : String) (start_line end_line : Nat) (_reverse : Bool) : CmdOutcome :=
  match line_history with
  | .error e => { stdout_lines := [], stderr_lines := ["Error getting line history: " ++ e],
                  exit_code := some 1 }
  | .ok commits =>
    if commits.isEmpty then
      { stdout_lines := ["No history found for " ++ file_path ++ ":" ++ toString start_line
          ++ "-" ++ toString end_line],
        stderr_lines := [], exit_code := none }
    else
      match file_versions with
      | .error e => { stdout_lines := [], stderr_lines := ["Error getting file versions: " ++ e],
                      exit_code := some 1 }
      | .ok _ =>
        match viewer with
        | .error e => { stdout_lines := [],
                        stderr_lines := ["Error running interactive viewer: " ++ e],
                        exit_code := some 1 }
        | .ok _ => { stdout_lines := [], stderr_lines := [], exit_code := none }

/-- `handle_file_command` (main.rs 150-174). Unlike the `lines` handler, its
failure arms only `eprintln!` and return — there is no `process::exit`
call anywhere in this function, so the process ends with status 0. -/
def handle_file_command (file_versions : Except String (List FileVersion))
    (viewer : Except String Unit) (file_path : String) (_reverse : Bool) : CmdOutcome :=
  let loading := "Loading file history for " ++ file_path ++ "..."
  match file_versions with
  | .error e => { stdout_lines := [loading], stderr_lines := ["Error: " ++ e], exit_code := none }
  | .ok versions =>
    if versions.isEmpty then
      { stdout_lines := [loading, "No git history found for " ++ file_path],
        stderr_lines := [], exit_code := none }
    else
      match viewer with
      | .error e => { stdout_lines := [loading],
                      stderr_lines := ["Error running interactive viewer: " ++ e],
                      exit_code := none }
      | .ok _ => { stdout_lines := [loading], stderr_lines := [], exit_code := none }

/-! ## Concrete fixtures -/

/-- A minimal blame row carrying only a line number (the other fields do not
influence the algorithms under test). -/
def mkSimpleLine (n : Nat) : BlameLine :=
  { line_number := n, author := "a", date := "d", commit_hash := "h",
    commit_message := "m", content := "c", highlighted_content := "c" }

/-- The spec's cross-version tracking example: the new version's filtered
rows have line numbers [5, 6, 8, 9]. -/
def exLines : List BlameLine := [mkSimpleLine 5, mkSimpleLine 6, mkSimpleLine 8, mkSimpleLine 9]

/-- A version whose lines are numbered 1..42 (the spec's window-clamp example). -/
def version42 : FileVersion :=
  { commit_hash := "h", commit_date := "d", commit_message := "m",
    blame_lines := (List.range 42).map (fun i => mkSimpleLine (i + 1)) }

/-- A version with ten lines, used to drive the viewer state machine. -/
def version10 : FileVersion :=
  { commit_hash := "h", commit_date := "d", commit_message := "m",
    blame_lines := (List.range 10).map (fun i => mkSimpleLine (i + 1)) }

/-- A one-version sequence for viewer runs. -/
def demoVersions : List FileVersion := [version10]

/-- The spec's synthetic one-hunk diff: header `@@ -1,3 +1,4 @@`, one
context line, two additions, one deletion. -/
def exampleDiff : String := "@@ -1,3 +1,4 @@\n ctx\n+add1\n-rem1\n+add2"

/-- The input events the spec calls scroll events: Up, Down, PageUp,
PageDown, Home, End, wheel up, wheel down (main.rs 663-709). -/
def isScrollEvent : VEvent → Bool
  | .key .up | .key .down | .key .pageUp | .key .pageDown | .key .home | .key .endKey => true
  | .mouse .scrollUp | .mouse .scrollDown => true
  | _ => false

/-! ## Helper lemmas -/

/-- A `getD` lookup at an in-bounds index returns a list member. -/
lemma getD_mem {α : Type} : ∀ (ls : List α) (k : Nat) (d : α), k < ls.length → ls.getD k d ∈ ls := by
  intro ls
  induction ls with
  | nil => intro k d hk; simp at hk
  | cons a as ih =>
    intro k d hk
    cases k with
    | zero => simp
    | succ k =>
      simp only [List.getD_cons_succ]
      exact List.mem_cons_of_mem _ (ih k d (by simpa using hk))

/-- `positionAux` success: the found index is the offset plus the first
position in the list satisfying `p`. -/
lemma positionAux_some {α : Type} (p : α → Bool) (d : α) :
    ∀ (ls : List α) (i j : Nat), positionAux p ls i = some j →
      ∃ k, k < ls.length ∧ j = i + k ∧ p (ls.getD k d) = true ∧
        ∀ m, m < k → p (ls.getD m d) = false := by
  intro ls
  induction ls with
  | nil => intro i j h; simp [positionAux] at h
  | cons a as ih =>
    intro i j h
    by_cases hpa : p a = true
    · refine ⟨0, by simp, ?_, by simpa using hpa, by omega⟩
      simp [positionAux, hpa] at h
      omega
    · have hpa' : p a = false := by simpa using hpa
      simp [positionAux, hpa'] at h
      obtain ⟨k, hk, hj, hget, hbefore⟩ := ih (i + 1) j h
      refine ⟨k + 1, by simpa using hk, by omega, by simpa using hget, ?_⟩
      intro m hm
      cases m with
      | zero => simpa using hpa'
      | succ m => simpa using hbefore m (by omega)

/-- `positionAux` failure: no list element satisfies `p`. -/
lemma positionAux_none {α : Type} (p : α → Bool) :
    ∀ (ls : List α) (i : Nat), positionAux p ls i = none → ∀ l ∈ ls, p l = false := by
  intro ls
  induction ls with
  | nil => intro i _ l hl; simp at hl
  | cons a as ih =>
    intro i h l hl
    by_cases hpa : p a = true
    · simp [positionAux, hpa] at h
    · have hpa' : p a = false := by simpa using hpa
      simp [positionAux, hpa'] at h
      cases hl with
      | head => exact hpa'
      | tail _ hl => exact ih (i + 1) h l hl

/-- The tracker's distance is zero exactly on the target line number. -/
lemma lineDist_eq_zero_iff (target n : Nat) : lineDist target n = 0 ↔ n = target := by
  simp only [lineDist]
  split <;> omega

/-- With both endpoints in `usize` range, the distance is at most `usize::MAX`. -/
lemma lineDist_le_usize {target n : Nat} (ht : target ≤ USIZE_MAX) (hn : n ≤ USIZE_MAX) :
    lineDist target n ≤ USIZE_MAX := by
  simp only [lineDist, USIZE_MAX] at *
  split <;> omega

/-- If no remaining row strictly beats the running minimum, the scan keeps
the current candidate. -/
lemma closestLoop_no_improve (target : Nat) :
    ∀ (ls : List BlameLine) (pos cp md : Nat),
      (∀ l ∈ ls, md ≤ lineDist target l.line_number) →
      closestLoop target ls pos cp md = cp := by
  intro ls
  induction ls with
  | nil => intro pos cp md _; rfl
  | cons a as ih =>
    intro pos cp md h
    have ha : md ≤ lineDist target a.line_number := h a (by simp)
    have hrest : ∀ l ∈ as, md ≤ lineDist target l.line_number := fun l hl => h l (by simp [hl])
    simp only [closestLoop, if_neg (by omega : ¬ lineDist target a.line_number < md)]
    exact ih (pos + 1) cp md hrest

/-- If some remaining row strictly beats the running minimum, the scan
returns the offset of the first row of minimal distance: its distance beats
`md`, is a minimum over the whole remainder, and every earlier row is
strictly farther. -/
lemma closestLoop_spec (target : Nat) :
    ∀ (ls : List BlameLine) (pos cp md : Nat),
      (∃ l ∈ ls, lineDist target l.line_number < md) →
      ∃ j, j < ls.length ∧ closestLoop target ls pos cp md = pos + j ∧
        lineDist target ((ls.getD j blameDefault).line_number) < md ∧
        (∀ k, k < ls.length →
          lineDist target ((ls.getD j blameDefault).line_number) ≤
            lineDist target ((ls.getD k blameDefault).line_number)) ∧
        (∀ k, k < j →
          lineDist target ((ls.getD j blameDefault).line_number) <
            lineDist target ((ls.getD k blameDefault).line_number)) := by
  intro ls
  induction ls with
  | nil => intro pos cp md h; simp at h
  | cons a as ih =>
    intro pos cp md h
    set d := lineDist target a.line_number with hd
    by_cases hda : d < md
    · -- the head strictly improves: the loop adopts position `pos`
      simp only [closestLoop, ← hd, if_pos hda]
      by_cases hrest : ∃ l ∈ as, lineDist target l.line_number < d
      · -- some later row beats the head as well
        obtain ⟨j', hj', heq, hlt, hmin, hbefore⟩ := ih (pos + 1) pos d hrest
        refine ⟨j' + 1, by simpa using hj', by omega, ?_, ?_, ?_⟩
        · simp only [List.getD_cons_succ]; omega
        · intro k hk
          cases k with
          | zero => simp only [List.getD_cons_succ, List.getD_cons_zero]; omega
          | succ k => simpa using hmin k (by simpa using hk)
        · intro k hk
          cases k with
          | zero => simp only [List.getD_cons_succ, List.getD_cons_zero]; omega
          | succ k => simpa using hbefore k (by omega)
      · -- the head is the first minimum
        push_neg at hrest
        have hall : ∀ l ∈ as, d ≤ lineDist target l.line_number := fun l hl => hrest l hl
        refine ⟨0, by simp, by simpa using closestLoop_no_improve target as (pos + 1) pos d hall,
          by simpa using hda, ?_, by omega⟩
        intro k hk
        cases k with
        | zero => simp
        | succ k =>
          simp only [List.getD_cons_zero, List.getD_cons_succ, ← hd]
          exact hall _ (getD_mem as k blameDefault (by simpa using hk))
    · -- the head does not improve: the winner lies in the tail
      have hrest : ∃ l ∈ as, lineDist target l.line_number < md := by
        obtain ⟨l, hl, hlt⟩ := h
        cases hl with
        | head => simp only [← hd] at hlt; omega
        | tail _ hl => exact ⟨l, hl, hlt⟩
      simp only [closestLoop, ← hd, if_neg hda]
      obtain ⟨j', hj', heq, hlt, hmin, hbefore⟩ := ih (pos + 1) cp md hrest
      refine ⟨j' + 1, by simpa using hj', by omega, by simpa using hlt, ?_, ?_⟩
      · intro k hk
        cases k with
        | zero => simp only [List.getD_cons_succ, List.getD_cons_zero]; omega
        | succ k => simpa using hmin k (by simpa using hk)
      · intro k hk
        cases k with
        | zero => simp only [List.getD_cons_succ, List.getD_cons_zero]; omega
        | succ k => simpa using hbefore k (by omega)

/-- If no remaining line is tab-prefixed, the metadata scan consumes the
whole input and leaves the content empty. -/
lemma scanRecord_no_tab :
    ∀ (ls : List (List Char)) (author date summary : String),
      (∀ m ∈ ls, (['\t'].isPrefixOf m) = false) →
      (scanRecord author date summary ls).content = "" ∧
        (scanRecord author date summary ls).rest = [] := by
  intro ls
  induction ls with
  | nil => intro a d s _; exact ⟨rfl, rfl⟩
  | cons info rest ih =>
    intro a d s h
    have htab : (['\t'].isPrefixOf info) = false := h info (by simp)
    have hrest : ∀ m ∈ rest, (['\t'].isPrefixOf m) = false := fun m hm => h m (by simp [hm])
    simp only [scanRecord]
    split
    · exact ih _ d s hrest
    · split
      · split
        · exact ih a _ s hrest
        · exact ih a d s hrest
      · split
        · exact ih a d _ hrest
        · split
          · rename_i htrue
            rw [htab] at htrue
            cases htrue
          · exact ih a d s hrest

/-! ## Claim theorems -/

/-- C1 counterexample. The claim says the message of
`"h|2024-01-01|Jane Doe|fix|the|bug"` is the fourth through last fields
rejoined, `"fix|the|bug"`. The Commit Parser actually stores only the fourth
field: the parsed message is `"fix"`, not `"fix|the|bug"`. -/
theorem c1_counterexample :
    parse_commit_line "h|2024-01-01|Jane Doe|fix|the|bug" =
      some { hash := "h", date := "2024-01-01", author := "Jane Doe", message := "fix" } ∧
    ("fix" : String) ≠ "fix|the|bug" := by
  constructor
  · decide
  · decide

/-- C1 (amended): for every commit-log line with four or more pipe-delimited
fields, the Commit Parser returns a `CommitInfo` whose message is the fourth
field alone — fields past the fourth are discarded, not rejoined. -/
theorem c1_message_is_fourth_field (line : String)
    (h : 4 ≤ (commitParts line).length) :
    parse_commit_line line =
      some { hash := (commitParts line).getD 0 "", date := (commitParts line).getD 1 "",
             author := (commitParts line).getD 2 "", message := (commitParts line).getD 3 "" } := by
  simp only [parse_commit_line, if_pos h]

/-- C1 witness: the amended theorem applied to the spec's own example line. -/
theorem c1_message_is_fourth_field_witness :
    4 ≤ (commitParts "h|2024-01-01|Jane Doe|fix|the|bug").length ∧
    parse_commit_line "h|2024-01-01|Jane Doe|fix|the|bug" =
      some { hash := (commitParts "h|2024-01-01|Jane Doe|fix|the|bug").getD 0 "",
             date := (commitParts "h|2024-01-01|Jane Doe|fix|the|bug").getD 1 "",
             author := (commitParts "h|2024-01-01|Jane Doe|fix|the|bug").getD 2 "",
             message := (commitParts "h|2024-01-01|Jane Doe|fix|the|bug").getD 3 "" } :=
  ⟨by decide, c1_message_is_fourth_field "h|2024-01-01|Jane Doe|fix|the|bug" (by decide)⟩

/-- C2 counterexample. On the spec's instance — filtered line numbers
[5, 6, 8, 9], target 7 — the tracker returns index 1, the row with line
number 6, and not index 2, the row with line number 8: the strict-improvement
scan keeps the first of the two equally distant rows. -/
theorem c2_counterexample :
    find_closest_line_in_filtered exLines 7 = some 1 ∧
    (exLines.getD 1 blameDefault).line_number = 6 ∧
    (exLines.getD 2 blameDefault).line_number = 8 ∧
    find_closest_line_in_filtered exLines 7 ≠ some 2 := by
  refine ⟨by decide, by decide, by decide, by decide⟩

/-- C2 (amended): on filtered line numbers [5, 6, 8, 9] with target 7 the
tracker returns a result (never an error) and resolves to the row with line
number 6 — lines 6 and 8 are equally distant from 7 and the tie goes to the
lower line number, scanned first. -/
theorem c2_resolves_to_line_six :
    find_closest_line_in_filtered exLines 7 ≠ none ∧
    find_closest_line_in_filtered exLines 7 = some 1 ∧
    (exLines.getD 1 blameDefault).line_number = 6 ∧
    lineDist 7 6 = lineDist 7 8 := by
  refine ⟨by decide, by decide, by decide, by decide⟩

/-- C3 (confirmed): on a non-empty filtered row list sorted ascending by
line number (with `usize`-ranged values), the tracker returns an index `i`
in bounds such that: the row at `i` is an exact match whenever any exact
match exists; no row is strictly closer to the target; and every earlier
row — under the sortedness hypothesis, every row of lower line number — is
strictly farther, so the first (lowest-line-number) minimal-distance row
wins ties. -/
theorem c3_tracker_first_minimal (filtered : List BlameLine) (target : Nat)
    (hne : filtered ≠ [])
    (hsorted : List.Pairwise (fun a b => a.line_number ≤ b.line_number) filtered)
    (hbound : ∀ l ∈ filtered, l.line_number ≤ USIZE_MAX)
    (htarget : target ≤ USIZE_MAX) :
    ∃ i, i < filtered.length ∧
      find_closest_line_in_filtered filtered target = some i ∧
      ((∃ l ∈ filtered, l.line_number = target) →
        (filtered.getD i blameDefault).line_number = target) ∧
      (∀ k, k < filtered.length →
        lineDist target ((filtered.getD i blameDefault).line_number) ≤
          lineDist target ((filtered.getD k blameDefault).line_number)) ∧
      (∀ k, k < i →
        lineDist target ((filtered.getD i blameDefault).line_number) <
          lineDist target ((filtered.getD k blameDefault).line_number)) := by
  have hie : filtered.isEmpty = false := by
    cases filtered
    · exact absurd rfl hne
    · rfl
  simp only [find_closest_line_in_filtered, hie, Bool.false_eq_true, if_false]
  cases hpos : position (fun line => line.line_number == target) filtered with
  | some pos =>
    rw [position] at hpos
    obtain ⟨k, hk, hpk, hget, hbefore⟩ :=
      positionAux_some (fun line => line.line_number == target) blameDefault filtered 0 pos hpos
    have hpk' : pos = k := by omega
    subst hpk'
    have hexact : (filtered.getD pos blameDefault).line_number = target := by
      simpa using hget
    have hdist0 : lineDist target ((filtered.getD pos blameDefault).line_number) = 0 := by
      rw [hexact]
      simp [lineDist]
    refine ⟨pos, hk, rfl, fun _ => hexact, ?_, ?_⟩
    · intro k' _
      omega
    · intro k' hk'
      have hne' : (filtered.getD k' blameDefault).line_number ≠ target := by
        have := hbefore k' hk'
        simpa using this
      have : lineDist target ((filtered.getD k' blameDefault).line_number) ≠ 0 := by
        rw [Ne, lineDist_eq_zero_iff]
        exact hne'
      omega
  | none =>
    rw [position] at hpos
    have hnoexact : ∀ l ∈ filtered, l.line_number ≠ target := by
      intro l hl
      have := positionAux_none (fun line => line.line_number == target) filtered 0 hpos l hl
      simpa using this
    by_cases himp : ∃ l ∈ filtered, lineDist target l.line_number < USIZE_MAX
    · obtain ⟨j, hj, heq, _, hmin, hbefore⟩ :=
        closestLoop_spec target filtered 0 0 USIZE_MAX himp
      refine ⟨j, hj, by simpa using congrArg some heq, ?_, hmin, hbefore⟩
      intro hex
      obtain ⟨l, hl, hlt⟩ := hex
      exact absurd hlt (hnoexact l hl)
    · push_neg at himp
      have hall : ∀ l ∈ filtered, USIZE_MAX ≤ lineDist target l.line_number := himp
      have heq0 : closestLoop target filtered 0 0 USIZE_MAX = 0 :=
        closestLoop_no_improve target filtered 0 0 USIZE_MAX hall
      have hlen : 0 < filtered.length := by
        cases filtered
        · exact absurd rfl hne
        · simp
      have hdistmax : ∀ k, k < filtered.length →
          lineDist target ((filtered.getD k blameDefault).line_number) = USIZE_MAX := by
        intro k hk
        have hmem := getD_mem filtered k blameDefault hk
        have h1 := hall _ hmem
        have h2 := lineDist_le_usize htarget (hbound _ hmem)
        omega
      refine ⟨0, hlen, by simpa using congrArg some heq0, ?_, ?_, by omega⟩
      · intro hex
        obtain ⟨l, hl, hlt⟩ := hex
        exact absurd hlt (hnoexact l hl)
      · intro k hk
        rw [hdistmax 0 hlen, hdistmax k hk]
  
/-- C3 witness: the theorem applied to the sorted two-row list with line
numbers [3, 10] and target 4 (no exact match; row 0 is strictly closer). -/
theorem c3_tracker_first_minimal_witness :
    ([mkSimpleLine 3, mkSimpleLine 10] ≠ [] ∧
      List.Pairwise (fun a b : BlameLine => a.line_number ≤ b.line_number)
        [mkSimpleLine 3, mkSimpleLine 10] ∧
      (∀ l ∈ [mkSimpleLine 3, mkSimpleLine 10], l.line_number ≤ USIZE_MAX) ∧
      4 ≤ USIZE_MAX) ∧
    (∃ i, i < ([mkSimpleLine 3, mkSimpleLine 10] : List BlameLine).length ∧
      find_closest_line_in_filtered [mkSimpleLine 3, mkSimpleLine 10] 4 = some i ∧
      ((∃ l ∈ [mkSimpleLine 3, mkSimpleLine 10], l.line_number = 4) →
        (([mkSimpleLine 3, mkSimpleLine 10] : List BlameLine).getD i blameDefault).line_number = 4) ∧
      (∀ k, k < ([mkSimpleLine 3, mkSimpleLine 10] : List BlameLine).length →
        lineDist 4 ((([mkSimpleLine 3, mkSimpleLine 10] : List BlameLine).getD i blameDefault).line_number) ≤
          lineDist 4 ((([mkSimpleLine 3, mkSimpleLine 10] : List BlameLine).getD k blameDefault).line_number)) ∧
      (∀ k, k < i →
        lineDist 4 ((([mkSimpleLine 3, mkSimpleLine 10] : List BlameLine).getD i blameDefault).line_number) <
          lineDist 4 ((([mkSimpleLine 3, mkSimpleLine 10] : List BlameLine).getD k blameDefault).line_number))) :=
  ⟨⟨by decide, by decide, by decide, by decide⟩,
    c3_tracker_first_minimal [mkSimpleLine 3, mkSimpleLine 10] 4
      (by decide) (by decide) (by decide) (by decide)⟩

/-- The blame parser's loop yields `some []` on exhausted input, for any fuel. -/
lemma parse_blame_aux_nil (highlight : String → String) (fuel : Nat) :
    parse_blame_aux highlight fuel [] = some [] := by
  cases fuel <;> rfl

/-- C4 counterexample. The claim says a record whose header is never
followed by a tab-prefixed content line is dropped. Parsing the
single-line input `"abcdef1 1 5"` — a header with no content line —
produces one `BlameLine` (with empty content), not zero. The truncated
header `"ééééa 1 5"` (a 9-byte first token with no character boundary at
byte 7) is not dropped either: there the short-hash slice panics. -/
theorem c4_counterexample :
    parse_blame_output_with_highlighting (fun s => s) "abcdef1 1 5" =
      some [{ line_number := 5, author := "", date := "", commit_hash := "abcdef1",
              commit_message := "", content := "", highlighted_content := "" }] ∧
    parse_blame_output_with_highlighting (fun s => s) "abcdef1 1 5" ≠
      some ([] : List BlameLine) ∧
    parse_blame_output_with_highlighting (fun s => s) "ééééa 1 5" = none := by
  refine ⟨by decide, by decide, by decide⟩

/-- C4 (amended): a record whose header line is never followed by a
tab-prefixed content line before the input ends is NOT dropped. When the
header token's byte 7 is a character boundary (so the short-hash slice
`&commit_hash[..7]` at main.rs 468 does not panic), the Blame Parser emits
exactly one `BlameLine` for the truncated record, with empty content (the
push at main.rs 464 is unconditional); when byte 7 is not a boundary, the
parser panics on that slice — in neither case is the record silently
dropped. -/
theorem c4_truncated_record_emitted (highlight : String → String)
    (line : List Char) (rest : List (List Char))
    (h1 : 3 ≤ (splitWhitespaceChars line).length)
    (h2 : 7 ≤ utf8Len ((splitWhitespaceChars line).getD 0 []))
    (h3 : ∀ m ∈ rest, (['\t'].isPrefixOf m) = false) :
    (takeBytes ((splitWhitespaceChars line).getD 0 []) 7 = none →
      parse_blame_records highlight (line :: rest) = none) ∧
    (∀ hash7, takeBytes ((splitWhitespaceChars line).getD 0 []) 7 = some hash7 →
      ∃ b, parse_blame_records highlight (line :: rest) = some [b] ∧ b.content = "") := by
  obtain ⟨hcontent, hrest⟩ := scanRecord_no_tab rest "" "" "" h3
  constructor
  · intro hpanic
    simp only [parse_blame_records, List.length_cons, parse_blame_aux]
    rw [if_pos ⟨h1, h2⟩, hpanic]
  · intro hash7 hslice
    simp only [parse_blame_records, List.length_cons, parse_blame_aux]
    rw [if_pos ⟨h1, h2⟩, hslice, hrest, parse_blame_aux_nil]
    exact ⟨_, rfl, hcontent⟩

/-- C4 witness: the amended theorem applied to a header followed by one
author line and no content line, with the all-ASCII hash token, whose byte 7
is a boundary. -/
theorem c4_truncated_record_emitted_witness :
    (3 ≤ (splitWhitespaceChars "0123456 1 9".toList).length ∧
      7 ≤ utf8Len ((splitWhitespaceChars "0123456 1 9".toList).getD 0 []) ∧
      (∀ m ∈ ["author Jane Doe".toList], (['\t'].isPrefixOf m) = false) ∧
      takeBytes ((splitWhitespaceChars "0123456 1 9".toList).getD 0 []) 7 =
        some "0123456".toList) ∧
    (∃ b, parse_blame_records (fun s => s)
        ("0123456 1 9".toList :: ["author Jane Doe".toList]) = some [b] ∧ b.content = "") :=
  ⟨⟨by decide, by decide, by decide, by decide⟩,
    (c4_truncated_record_emitted (fun s => s) "0123456 1 9".toList ["author Jane Doe".toList]
      (by decide) (by decide) (by decide)).2 "0123456".toList (by decide)⟩

/-- C5 counterexample. The claim says a failed initial history query exits
with nonzero status for both subcommands. In `handle_file_command` the
failure arm only prints to stderr and returns: the exit code is `none`
(process status 0), not a nonzero exit. -/
theorem c5_counterexample :
    (handle_file_command (.error "git failed") (.ok ()) "main.rs" false).stderr_lines =
      ["Error: git failed"] ∧
    (handle_file_command (.error "git failed") (.ok ()) "main.rs" false).exit_code = none := by
  exact ⟨rfl, rfl⟩

/-- C5 (amended): when the initial history query or decode fails, the
`lines` subcommand prints to the error stream and exits with status 1, but
the `file` subcommand only prints to the error stream and returns normally,
so the process ends with status 0. -/
theorem c5_error_reporting_amended (e : String) (fv : Except String (List FileVersion))
    (vr : Except String Unit) (fp : String) (s en : Nat) (rv : Bool) :
    ((handle_lines_command (.error e) fv vr fp s en rv).exit_code = some 1 ∧
      (handle_lines_command (.error e) fv vr fp s en rv).stderr_lines ≠ []) ∧
    ((handle_file_command (.error e) vr fp rv).exit_code = none ∧
      (handle_file_command (.error e) vr fp rv).stderr_lines ≠ []) := by
  refine ⟨⟨rfl, ?_⟩, ⟨rfl, ?_⟩⟩ <;> simp [handle_lines_command, handle_file_command]

/-- C6 counterexample. The claim says terminal-mode teardown happens on
every exit path, including a terminal I/O failure mid-session. A run that
completes one cycle and then hits an I/O failure returns the error with a
trace containing no `disableRaw` and no `leaveAlt`: the `?` operator leaves
`run_interactive_viewer` before the cleanup lines (main.rs 717-718) run. -/
theorem c6_counterexample :
    (run_interactive_viewer demoVersions 1 1000 [.ok 10 (.key .down), .ioFail]).2 = .ioError ∧
    TermEffect.disableRaw ∉ (run_interactive_viewer demoVersions 1 1000 [.ok 10 (.key .down), .ioFail]).1 ∧
    TermEffect.leaveAlt ∉ (run_interactive_viewer demoVersions 1 1000 [.ok 10 (.key .down), .ioFail]).1 := by
  refine ⟨by decide, by decide, by decide⟩

/-- C6 (amended): the terminal teardown (disable raw mode, leave alternate
screen) runs exactly on the normal quit path; an error exit propagates with
only the setup effects performed, leaving the terminal modes unrestored. -/
theorem c6_teardown_only_on_quit (versions : List FileVersion) (s e : Nat)
    (inputs : List CycleInput) :
    ((run_interactive_viewer versions s e inputs).2 = .ioError →
      (run_interactive_viewer versions s e inputs).1 = [.enableRaw, .enterAlt]) ∧
    (∀ st, (run_interactive_viewer versions s e inputs).2 = .quit st →
      (run_interactive_viewer versions s e inputs).1 =
        [.enableRaw, .enterAlt, .disableRaw, .leaveAlt]) := by
  simp only [run_interactive_viewer]
  cases viewerLoop versions s e
      { current_version := 0, scroll_offset := 0, target_line := none } inputs <;> simp

/-- C6 witness: the amended theorem's error clause applied to an immediate
I/O failure. -/
theorem c6_teardown_only_on_quit_witness :
    (run_interactive_viewer demoVersions 1 1000 [.ioFail]).2 = .ioError ∧
    (run_interactive_viewer demoVersions 1 1000 [.ioFail]).1 = [.enableRaw, .enterAlt] :=
  ⟨by decide, (c6_teardown_only_on_quit demoVersions 1 1000 [.ioFail]).1 (by decide)⟩

/-- A candidate prefix whose first character differs from the list's first
character is not a prefix. -/
lemma isPrefixOf_head_ne {a b : Char} (h : ¬ a = b) (pfx cs : List Char) :
    List.isPrefixOf (a :: pfx) (b :: cs) = false := by
  show (a == b && List.isPrefixOf pfx cs) = false
  have hab : (a == b) = false := by
    cases hx : a == b
    · rfl
    · exact absurd (by simpa using hx) h
  rw [hab, Bool.false_and]

/-- C7 (confirmed): inside a hunk, a `+` line (not `+++`) emits `Added` at
the current counter and increments it; a `-` line (not `---`) emits
`Removed` at the current counter and leaves it unchanged; a space line only
increments; the hunk header `@@ -1,3 +1,4 @@` initialises the counter to 1
whatever it was before; and the spec's synthetic one-hunk diff (2 additions,
1 deletion) yields exactly 2 `Added` and 1 `Removed` records, with the
removal's line number repeated by the following addition. -/
theorem c7_diff_semantics :
    (∀ ln l rest, (['+'].isPrefixOf l) = true → ("+++".toList.isPrefixOf l) = false →
      parseDiffLoop true ln (l :: rest) =
        { line_number := ln, change_type := ChangeType.Added, content := String.mk (l.drop 1) }
          :: parseDiffLoop true (ln + 1) rest) ∧
    (∀ ln l rest, (['-'].isPrefixOf l) = true → ("---".toList.isPrefixOf l) = false →
      parseDiffLoop true ln (l :: rest) =
        { line_number := ln, change_type := ChangeType.Removed, content := String.mk (l.drop 1) }
          :: parseDiffLoop true ln rest) ∧
    (∀ ln l rest, ([' '].isPrefixOf l) = true →
      parseDiffLoop true ln (l :: rest) = parseDiffLoop true (ln + 1) rest) ∧
    (∀ prev rest, parseDiffLoop false prev ("@@ -1,3 +1,4 @@".toList :: rest) =
      parseDiffLoop true 1 rest) ∧
    parse_diff_output exampleDiff =
      [{ line_number := 2, change_type := .Added, content := "add1" },
       { line_number := 3, change_type := .Removed, content := "rem1" },
       { line_number := 3, change_type := .Added, content := "add2" }] ∧
    ((parse_diff_output exampleDiff).filter
      (fun c => c.change_type == ChangeType.Added)).length = 2 ∧
    ((parse_diff_output exampleDiff).filter
      (fun c => c.change_type == ChangeType.Removed)).length = 1 := by
  refine ⟨?_, ?_, ?_, ?_, by decide, by decide, by decide⟩
  · -- `+` line
    intro ln l rest hp hppp
    cases l with
    | nil => simp [List.isPrefixOf] at hp
    | cons c cs =>
      have hc : '+' = c := by
        have : ('+' == c && List.isPrefixOf [] cs) = true := hp
        simpa using this
      subst hc
      rw [parseDiffLoop,
        if_neg (by simp [isPrefixOf_head_ne (by decide : ¬ '@' = '+')]),
        if_neg (by simp),
        if_neg (by simp [isPrefixOf_head_ne (by decide : ¬ 'c' = '+'),
          isPrefixOf_head_ne (by decide : ¬ 'd' = '+')]),
        if_pos (by rw [hp, hppp]; rfl)]
  · -- `-` line
    intro ln l rest hp hmmm
    cases l with
    | nil => simp [List.isPrefixOf] at hp
    | cons c cs =>
      have hc : '-' = c := by
        have : ('-' == c && List.isPrefixOf [] cs) = true := hp
        simpa using this
      subst hc
      rw [parseDiffLoop,
        if_neg (by simp [isPrefixOf_head_ne (by decide : ¬ '@' = '-')]),
        if_neg (by simp),
        if_neg (by simp [isPrefixOf_head_ne (by decide : ¬ 'c' = '-'),
          isPrefixOf_head_ne (by decide : ¬ 'd' = '-')]),
        if_neg (by simp [isPrefixOf_head_ne (by decide : ¬ '+' = '-')]),
        if_pos (by rw [hp, hmmm]; rfl)]
  · -- space line
    intro ln l rest hp
    cases l with
    | nil => simp [List.isPrefixOf] at hp
    | cons c cs =>
      have hc : ' ' = c := by
        have : (' ' == c && List.isPrefixOf [] cs) = true := hp
        simpa using this
      subst hc
      rw [parseDiffLoop,
        if_neg (by simp [isPrefixOf_head_ne (by decide : ¬ '@' = ' ')]),
        if_neg (by simp),
        if_neg (by simp [isPrefixOf_head_ne (by decide : ¬ 'c' = ' '),
          isPrefixOf_head_ne (by decide : ¬ 'd' = ' ')]),
        if_neg (by simp [isPrefixOf_head_ne (by decide : ¬ '+' = ' ')]),
        if_neg (by simp [isPrefixOf_head_ne (by decide : ¬ '-' = ' ')]),
        if_pos hp]
  · -- hunk header
    intro prev rest
    rw [parseDiffLoop, if_pos (by decide)]
    have hinit : parseHunkNewStart "@@ -1,3 +1,4 @@".toList prev = 1 := rfl
    rw [hinit]

/-- C7 witness: the `+`-line clause applied to the concrete line `"+foo"`
with counter 5. -/
theorem c7_diff_semantics_witness :
    ((['+'].isPrefixOf "+foo".toList) = true ∧
      ("+++".toList.isPrefixOf "+foo".toList) = false) ∧
    parseDiffLoop true 5 ["+foo".toList] =
      { line_number := 5, change_type := ChangeType.Added,
        content := String.mk ("+foo".toList.drop 1) } :: parseDiffLoop true 6 [] :=
  ⟨⟨by decide, by decide⟩, c7_diff_semantics.1 5 "+foo".toList [] (by decide) (by decide)⟩

/-- C8 counterexample. Run the viewer loop on a ten-row version: End at
terminal height 6 (content height 2) sets `scroll_offset = 8`; the terminal
then grows to height 12 (content height 8) and Up sets `scroll_offset = 7`,
which exceeds `max (0, 10 - 8) = 2` — so after a scroll input event the
claimed bound `scroll_offset ≤ max 0 (rows - content_height)` fails. -/
theorem c8_counterexample :
    viewerLoop demoVersions 1 1000
      { current_version := 0, scroll_offset := 0, target_line := none }
      [.ok 6 (.key .endKey), .ok 12 (.key .up)] =
      .pending { current_version := 0, scroll_offset := 7, target_line := none } ∧
    (filteredLines (demoVersions.getD 0 emptyVersion) 1 1000).length = 10 ∧
    ¬ (7 ≤ max 0 ((filteredLines (demoVersions.getD 0 emptyVersion) 1 1000).length - (12 - 4))) := by
  refine ⟨by decide, by decide, by decide⟩

/-- C8 (amended): every scroll input event keeps `scroll_offset`
non-negative and preserves the bound
`scroll_offset ≤ total_filtered_rows - content_height` (truncated
subtraction, i.e. `max (0, rows - height)`) whenever the pre-event offset
already satisfied it — which is the case except after a terminal resize or
a switch to a version whose filtered set is empty — and End always sets
`scroll_offset` to exactly that bound. -/
theorem c8_scroll_clamp_amended (ev : VEvent) (filtered : List BlameLine)
    (content_height num_versions : Nat) (st : ViewerSt)
    (hev : isScrollEvent ev = true)
    (hpre : st.scroll_offset ≤ filtered.length - content_height) :
    0 ≤ (handleEvent ev filtered content_height num_versions st).1.scroll_offset ∧
    (handleEvent ev filtered content_height num_versions st).1.scroll_offset ≤
      filtered.length - content_height ∧
    (ev = .key .endKey →
      (handleEvent ev filtered content_height num_versions st).1.scroll_offset =
        filtered.length - content_height) := by
  cases ev with
  | otherEvent => simp [isScrollEvent] at hev
  | mouse m =>
    cases m with
    | otherMouse => simp [isScrollEvent] at hev
    | scrollUp =>
      refine ⟨Nat.zero_le _, ?_, by simp⟩
      simp only [handleEvent]
      omega
    | scrollDown =>
      refine ⟨Nat.zero_le _, ?_, by simp⟩
      simp only [handleEvent]
      split <;> simp
  | key k =>
    cases k with
    | qKey => simp [isScrollEvent] at hev
    | left => simp [isScrollEvent] at hev
    | right => simp [isScrollEvent] at hev
    | otherKey => simp [isScrollEvent] at hev
    | up =>
      refine ⟨Nat.zero_le _, ?_, by simp⟩
      simp only [handleEvent]
      split <;> simp <;> omega
    | down =>
      refine ⟨Nat.zero_le _, ?_, by simp⟩
      simp only [handleEvent]
      split <;> simp <;> omega
    | pageUp =>
      refine ⟨Nat.zero_le _, ?_, by simp⟩
      simp only [handleEvent]
      omega
    | pageDown =>
      refine ⟨Nat.zero_le _, ?_, by simp⟩
      simp only [handleEvent]
      simp
    | home =>
      refine ⟨Nat.zero_le _, ?_, by simp⟩
      simp [handleEvent]
    | endKey =>
      refine ⟨Nat.zero_le _, by simp [handleEvent], fun _ => by simp [handleEvent]⟩

/-- C8 witness: the amended theorem applied to a Down event on a three-row
list with content height 1 from offset 0. -/
theorem c8_scroll_clamp_amended_witness :
    (isScrollEvent (.key .down) = true ∧
      ({ current_version := 0, scroll_offset := 0, target_line := none } : ViewerSt).scroll_offset ≤
        ([mkSimpleLine 1, mkSimpleLine 2, mkSimpleLine 3] : List BlameLine).length - 1) ∧
    (0 ≤ (handleEvent (.key .down) [mkSimpleLine 1, mkSimpleLine 2, mkSimpleLine 3] 1 1
        { current_version := 0, scroll_offset := 0, target_line := none }).1.scroll_offset ∧
      (handleEvent (.key .down) [mkSimpleLine 1, mkSimpleLine 2, mkSimpleLine 3] 1 1
        { current_version := 0, scroll_offset := 0, target_line := none }).1.scroll_offset ≤
        ([mkSimpleLine 1, mkSimpleLine 2, mkSimpleLine 3] : List BlameLine).length - 1 ∧
      ((.key .down : VEvent) = .key .endKey →
        (handleEvent (.key .down) [mkSimpleLine 1, mkSimpleLine 2, mkSimpleLine 3] 1 1
          { current_version := 0, scroll_offset := 0, target_line := none }).1.scroll_offset =
          ([mkSimpleLine 1, mkSimpleLine 2, mkSimpleLine 3] : List BlameLine).length - 1)) :=
  ⟨⟨by decide, by decide⟩,
    c8_scroll_clamp_amended (.key .down) [mkSimpleLine 1, mkSimpleLine 2, mkSimpleLine 3] 1 1
      { current_version := 0, scroll_offset := 0, target_line := none } (by decide) (by decide)⟩

/-- C9 (confirmed): the Line-Range Filter returns, in order (a sublist of
the version's rows), exactly the rows whose line number lies in
`[start, min (end, max_line_in_version)]`; the window `[1, 1000]` on a
version with lines 1..42 yields exactly 42 rows; and a window beyond the
version's extent yields the empty list as an ordinary (non-error) value. -/
theorem c9_line_range_filter :
    (∀ v s e, List.Sublist (filteredLines v s e) v.blame_lines) ∧
    (∀ v s e l, l ∈ filteredLines v s e ↔
      l ∈ v.blame_lines ∧ s ≤ l.line_number ∧ l.line_number ≤ min e (maxLineInVersion v)) ∧
    (filteredLines version42 1 1000).length = 42 ∧
    filteredLines version42 100 1000 = [] := by
  refine ⟨?_, ?_, by decide, by decide⟩
  · intro v s e
    simp only [filteredLines]
    exact List.filter_sublist _
  · intro v s e l
    simp only [filteredLines, List.mem_filter, Bool.and_eq_true, decide_eq_true_eq]
    by_cases h : maxLineInVersion v < e <;>
      simp only [h, if_true, if_false] <;>
      constructor <;>
      · rintro ⟨hm, h1, h2⟩
        refine ⟨hm, h1, ?_⟩
        omega

/-- C10 (confirmed): the render step's truncation is byte-index slicing and
is not total. The content row `"aééééé"` at content width 5 cuts at byte 2,
the middle of the two-byte `é`, and the render panics (`none`); the commit
line for a 9-character hash at terminal width 5 cuts inside the four-byte
`🔗` decoration and panics likewise; all-ASCII content of the same byte
length truncates normally (`some "ab..."`). -/
theorem c10_byte_truncation_panics :
    renderContentRow "aééééé" "aééééé" 5 = none ∧
    commitLineRender "abcdef123" "fix" 5 = none ∧
    renderContentRow "abcdefgh" "abcdefgh" 5 = some "ab..." := by
  refine ⟨by decide, by decide, by decide⟩
